import Mathlib

/-!
Verification development for the policymcp repository core:
the in-memory policy store with relevance search (src/policy-store.ts)
and the structural extractor (src/parsers/shared.ts).

Strings are embedded as `List Char`.  JavaScript's `toLowerCase`, `trim`
and the whitespace class `\s` are embedded at their ASCII fragment, which
covers every code point this development exercises.
-/

namespace PolicyMcp

/-- The JavaScript whitespace class `\s` (ASCII fragment): space, tab,
newline, carriage return, vertical tab, form feed. -/
def isWsCh (c : Char) : Bool :=
  c == ' ' || c == '\t' || c == '\n' || c == '\r' || c == '\x0b' || c == '\x0c'

/-- JavaScript `String.prototype.toLowerCase` (ASCII fragment): lower each
character with `Char.toLower`. -/
def toLowerL (s : List Char) : List Char := s.map Char.toLower

/-- JavaScript `String.prototype.trim`: drop whitespace from both ends. -/
def trimL (s : List Char) : List Char :=
  ((s.dropWhile isWsCh).reverse.dropWhile isWsCh).reverse

/-- Test whether `q` is a prefix of `s`. -/
def leadsWith : List Char → List Char → Bool
  | [], _ => true
  | _ :: _, [] => false
  | c :: q, d :: s => c == d && leadsWith q s

/-- JavaScript `String.prototype.includes`: `q` occurs as a contiguous
substring of `s`. -/
def containsSub (s q : List Char) : Bool :=
  leadsWith q s ||
    match s with
    | [] => false
    | _ :: t => containsSub t q

/-- JavaScript `s.split(sep)` for a one-character separator: split on every
occurrence, keeping empty pieces. -/
def splitOnCh (sep : Char) : List Char → List (List Char)
  | [] => [[]]
  | c :: t =>
    if c == sep then [] :: splitOnCh sep t
    else
      match splitOnCh sep t with
      | [] => [[c]]
      | p :: ps => (c :: p) :: ps

/-- JavaScript `content.split("\n")`. -/
def splitNl (s : List Char) : List (List Char) := splitOnCh '\n' s

/-- Worker for `splitWsJs`: `acc` holds the current token reversed and
`inRun` records that the scanner is inside a whitespace run whose token has
already been emitted. -/
def splitWsGo : List Char → List Char → Bool → List (List Char)
  | [], acc, _ => [acc.reverse]
  | c :: t, acc, inRun =>
    if isWsCh c then
      if inRun then splitWsGo t [] true
      else acc.reverse :: splitWsGo t [] true
    else splitWsGo t (c :: acc) false

/-- JavaScript `s.split(/\s+/)`: tokens between maximal whitespace runs,
with a leading empty token when `s` starts with whitespace and a trailing
empty token when `s` ends with whitespace. -/
def splitWsJs (s : List Char) : List (List Char) := splitWsGo s [] false

/-- Worker for `countOccur`, with explicit fuel.  Each step consumes at
least one character of `s`, so `s.length` fuel is enough. -/
def countOccurGo (q : List Char) : Nat → List Char → Nat
  | 0, _ => 0
  | fuel + 1, s =>
    if 0 < q.length ∧ leadsWith q s then 1 + countOccurGo q fuel (s.drop q.length)
    else
      match s with
      | [] => 0
      | _ :: t => countOccurGo q fuel t

/-- Number of non-overlapping occurrences of `q` in `s`, scanning left to
right and advancing past each match — the count produced by the source's
`while (match !== null)` loop over `queryRegex.exec(contentLower)` whenever
the query contains no regular-expression metacharacters (the `g`-flag
`exec` resumes at `lastIndex = match.index + match.length`).  The
metacharacter cases, where the source deviates from literal matching, are
treated separately by `regexCountLoop` and its `exec` models below.
For `q = []` this returns `0` (the source loop would not terminate there,
but `searchPolicies` only calls it with a non-empty query). -/
def countOccur (s q : List Char) : Nat := countOccurGo q s.length s

/-! ### Data model (src/types.ts) -/

/-- A section of a policy document (interface PolicySection). -/
structure PolicySection where
  heading : List Char
  content : List Char
  level : Nat
deriving DecidableEq, Inhabited

/-- A stored policy (interface Policy).  `extractedAt` (a `Date` in the
source) is embedded as an abstract timestamp. -/
structure Policy where
  id : List Char
  title : List Char
  content : List Char
  sourceFile : List Char
  category : Option (List Char)
  effectiveDate : Option (List Char)
  version : Option (List Char)
  sections : List PolicySection
  extractedAt : Nat
deriving DecidableEq, Inhabited

/-- A search result (interface PolicySearchResult).  JavaScript numbers on
the score paths are sums of the exact values 10, 1 and 0.5, embedded as
rationals. -/
structure PolicySearchResult where
  policy : Policy
  matchedSections : List (List Char)
  relevanceScore : ℚ
deriving DecidableEq, Inhabited

/-! ### PolicyStore search (src/policy-store.ts)

The store's `Map` is embedded by its list of values (`getAllPolicies`).
The scoring pipeline is parameterised by `ccount`, the semantics of the
builtin `RegExp` occurrence count used by `scoreContentMatches`; for
queries without regular-expression metacharacters that builtin counts
exactly the non-overlapping literal occurrences, i.e. `ccount = countOccur`
(instantiated in `searchPolicies`). -/

namespace PolicyStore

/-- `PolicyStore.scoreSectionMatch`: number of query terms occurring in the
lowercased string `heading ++ " " ++ content` of the section. -/
def scoreSectionMatch (sec : PolicySection) (queryTerms : List (List Char)) : Nat :=
  let sectionText := toLowerL (sec.heading ++ ' ' :: sec.content)
  queryTerms.countP (fun t => containsSub sectionText t)

/-- `PolicyStore.scoreContentMatches` with the occurrence-count semantics
`ccount` of the `g`-flag regex loop: count times 0.5. -/
def scoreContentMatchesWith (ccount : List Char → List Char → Nat)
    (content queryLower : List Char) : ℚ :=
  (ccount (toLowerL content) queryLower : ℚ) * (1 / 2)

/-- `PolicyStore.scorePolicy`: +10 for a whole-query title substring match,
plus the per-section term counts (recording headings of sections with a
positive count, in section order), plus the content contribution. -/
def scorePolicyWith (ccount : List Char → List Char → Nat) (policy : Policy)
    (queryLower : List Char) (queryTerms : List (List Char)) : PolicySearchResult :=
  let titleScore : ℚ := if containsSub (toLowerL policy.title) queryLower then 10 else 0
  let step := fun (st : ℚ × List (List Char)) (sec : PolicySection) =>
    let sectionScore := scoreSectionMatch sec queryTerms
    if 0 < sectionScore then (st.1 + sectionScore, st.2 ++ [sec.heading]) else st
  let folded := policy.sections.foldl step (0, [])
  { policy := policy
    matchedSections := folded.2
    relevanceScore := titleScore + folded.1 + scoreContentMatchesWith ccount policy.content queryLower }

/-- `PolicyStore.filterPoliciesByCategory`: case-insensitive exact category
match; an absent or empty category string (falsy in the source's
`if (!category)`) means no filtering. -/
def filterPoliciesByCategory (policies : List Policy) (category : Option (List Char)) :
    List Policy :=
  match category with
  | none => policies
  | some cat =>
    if cat = [] then policies
    else policies.filter (fun p =>
      match p.category with
      | some c => toLowerL c = toLowerL cat
      | none => false)

/-- Descending-score order used by the source's sort comparator
`(a, b) => b.relevanceScore - a.relevanceScore`. -/
def scoreGE (a b : PolicySearchResult) : Prop :=
  b.relevanceScore ≤ a.relevanceScore

instance : DecidableRel scoreGE := fun a b =>
  inferInstanceAs (Decidable (b.relevanceScore ≤ a.relevanceScore))

instance : IsTotal PolicySearchResult scoreGE :=
  ⟨fun a b => le_total b.relevanceScore a.relevanceScore⟩

instance : IsTrans PolicySearchResult scoreGE :=
  ⟨fun _ _ _ h1 h2 => le_trans h2 h1⟩

/-- `PolicyStore.searchPolicies`, parameterised by the occurrence-count
semantics `ccount` of the content-match regex loop.  The store contents are
given as the list of stored policies. -/
def searchPoliciesWith (ccount : List Char → List Char → Nat) (policies : List Policy)
    (query : List Char) (category : Option (List Char)) : List PolicySearchResult :=
  let queryLower := trimL (toLowerL query)
  let queryTerms := (splitWsJs queryLower).filter (fun t => 2 < t.length)
  if queryLower = [] ∨ queryTerms = [] then []
  else
    let candidates := filterPoliciesByCategory policies category
    let results := (candidates.map
        (fun p => scorePolicyWith ccount p queryLower queryTerms)).filter
      (fun r => 0 < r.relevanceScore)
    List.insertionSort scoreGE results

/-- `PolicyStore.searchPolicies` with the literal occurrence count — the
source's behaviour on every query that contains no regular-expression
metacharacters. -/
def searchPolicies (policies : List Policy) (query : List Char)
    (category : Option (List Char)) : List PolicySearchResult :=
  searchPoliciesWith countOccur policies query category

end PolicyStore

/-! ### Concrete fixtures used by witnesses -/

/-- A small stored policy used as concrete input by witness theorems. -/
def fooPolicy : Policy :=
  { id := "p1".data, title := "Foo Bar".data, content := "foo foo".data,
    sourceFile := "f.md".data, category := none, effectiveDate := none,
    version := none, sections := [], extractedAt := 0 }

/-! ### The content-match regex loop of scoreContentMatches

`PolicyStore.scoreContentMatches` compiles the raw query into
`new RegExp(queryLower, "g")` — without escaping — and counts matches in a
`while (match !== null)` loop over `queryRegex.exec(contentLower)`.  The
loop is embedded below over an abstract `exec` semantics, together with
the ECMAScript `exec` models of two concrete compiled patterns. -/

/-- The `while (match !== null)` loop of `scoreContentMatches`:
`execf lastIndex` returns the next match's index and length, or `none`;
with the `g` flag the search resumes at `lastIndex = index + length`.
`fuel` bounds the number of iterations; `none` means the loop is still
running after `fuel` iterations (the source loop has no other exit). -/
def regexCountLoop (execf : Nat → Option (Nat × Nat)) : Nat → Nat → Nat → Option Nat
  | 0, _, _ => none
  | fuel + 1, i, acc =>
    match execf i with
    | none => some acc
    | some (j, len) => regexCountLoop execf fuel (j + len) (acc + 1)

/-- ECMAScript line terminators, which the metacharacter `.` does not
match. -/
def isLineTermCh (c : Char) : Bool :=
  c == '\n' || c == '\r' || c == '\u2028' || c == '\u2029'

/-- Whether the compiled pattern "a.c" matches subject `s` at position `j`:
letter a, then any non-line-terminator, then letter c. -/
def matchADotCAt (s : List Char) (j : Nat) : Bool :=
  s[j]? == some 'a' &&
    (match s[j + 1]? with
     | some c => !isLineTermCh c
     | none => false) &&
    s[j + 2]? == some 'c'

/-- ECMAScript `exec` model of the query "a.c" compiled (unescaped) by
`scoreContentMatches`: the leftmost match at or after `lastIndex`, always
of length 3. -/
def execADotC (s : List Char) (i : Nat) : Option (Nat × Nat) :=
  match (List.range (s.length + 1)).find? (fun j => decide (i ≤ j) && matchADotCAt s j) with
  | some j => some (j, 3)
  | none => none

/-- ECMAScript `exec` model of the query "a*a*" compiled (unescaped) by
`scoreContentMatches`: the pattern matches at every position up to the
subject's length (so the leftmost match starts at `lastIndex` itself), and
the greedy match length is the run of letters a there — in particular
length 0 wherever no letter a follows. -/
def execAstarAstar (s : List Char) (i : Nat) : Option (Nat × Nat) :=
  if i ≤ s.length then some (i, ((s.drop i).takeWhile (fun c => c == 'a')).length)
  else none

/-- C1: the query "a.c" (one term of length 3, so it passes the guard of
`searchPolicies`) gives a non-zero content contribution on the document
content "abc" — the compiled regex finds one match, so the source adds
1 times 0.5 — while the literal-substring count required by the claim is 0,
contribution 0. -/
theorem scoreContentMatches_pattern_not_literal :
    (splitWsJs (trimL (toLowerL ("a.c".data)))).filter
      (fun t => decide (2 < t.length)) = [("a.c".data)] ∧
    regexCountLoop (execADotC (toLowerL ("abc".data))) 4 0 0 = some 1 ∧
    countOccur (toLowerL ("abc".data)) ("a.c".data) = 0 ∧
    PolicyStore.scoreContentMatchesWith countOccur ("abc".data) ("a.c".data) = 0 ∧
    decide ((1 : ℚ) * (1 / 2) = PolicyStore.scoreContentMatchesWith countOccur
      ("abc".data) ("a.c".data)) = false := by
  with_unfolding_all decide

/-- C2: the query "a*a*" passes the guard of `searchPolicies` (its single
term has length 4), yet on a document whose content is "bbb" the compiled
pattern matches the empty string at position 0, `lastIndex` never advances,
and the counting loop of `scoreContentMatches` never terminates: the loop
is still running after any number of iterations. -/
theorem scoreContentMatches_query_astar_diverges :
    (splitWsJs (trimL (toLowerL ("a*a*".data)))).filter
      (fun t => decide (2 < t.length)) = [("a*a*".data)] ∧
    execAstarAstar (toLowerL ("bbb".data)) 0 = some (0, 0) ∧
    ∀ fuel acc, regexCountLoop (execAstarAstar (toLowerL ("bbb".data))) fuel 0 acc = none := by
  refine ⟨by decide, by decide, ?_⟩
  intro fuel
  induction fuel with
  | zero => intro acc; rfl
  | succ n ih =>
    intro acc
    have he : execAstarAstar (toLowerL ("bbb".data)) 0 = some (0, 0) := by decide
    simp only [regexCountLoop, he]
    exact ih (acc + 1)

/-! ### Claims about searchPolicies -/

/-- The sections of the C3 scenario document. -/
def encSections : List PolicySection :=
  [ { heading := "1. Purpose".data,
      content := "Define encryption standards for sensitive data".data, level := 1 },
    { heading := "2. Scope".data,
      content := "Applies to all systems handling customer data".data, level := 1 } ]

/-- The C3 scenario document: title "Encryption Standards", the two
scenario sections, and a given full content. -/
def encPolicy (content : List Char) : Policy :=
  { id := "p1".data, title := "Encryption Standards".data, content := content,
    sourceFile := "enc.md".data, category := none, effectiveDate := none,
    version := none, sections := encSections, extractedAt := 0 }

/-- A concrete content whose lowercase form contains "encryption" exactly
twice. -/
def encContentEx : List Char :=
  "Encryption must be used. All encryption keys rotate.".data

/-- C3 (counterexample): at a concrete content containing "encryption"
exactly twice, the single search result's relevance score is 12, not the
11.5 stated by the claim (10 title + 1 section term + 2 times 0.5 content
equals 12). -/
theorem searchPolicies_encryption_score_not_11_5 :
    countOccur (toLowerL encContentEx) ("encryption".data) = 2 ∧
    (PolicyStore.searchPolicies [encPolicy encContentEx] ("encryption".data) none).map
      (fun r => r.relevanceScore) = [(12 : ℚ)] ∧
    decide ((PolicyStore.searchPolicies [encPolicy encContentEx] ("encryption".data) none).map
      (fun r => r.relevanceScore) = [(11.5 : ℚ)]) = false := by
  with_unfolding_all decide

/-- C3 (amended): for every content whose lowercase form contains
"encryption" exactly twice, searching the one-document store for
"encryption" returns exactly one result, with matched sections
["1. Purpose"] and relevance score 12 = 10 (title) + 1 (section-1 term) +
2 times 0.5 (content occurrences). -/
theorem searchPolicies_encryption_scenario (content : List Char)
    (h : countOccur (toLowerL content) ("encryption".data) = 2) :
    PolicyStore.searchPolicies [encPolicy content] ("encryption".data) none =
      [{ policy := encPolicy content, matchedSections := ["1. Purpose".data],
         relevanceScore := 12 }] := by
  have hq : trimL (toLowerL ("encryption".data)) = "encryption".data := by decide
  have hscore : PolicyStore.scorePolicyWith countOccur (encPolicy content)
      ("encryption".data) [("encryption".data)] =
      { policy := encPolicy content, matchedSections := ["1. Purpose".data],
        relevanceScore := 12 } := by
    simp only [PolicyStore.scorePolicyWith, PolicyStore.scoreContentMatchesWith]
    have hsec : (encPolicy content).sections = encSections := rfl
    have htitle : (encPolicy content).title = "Encryption Standards".data := rfl
    have hcont : (encPolicy content).content = content := rfl
    rw [hsec, htitle, hcont, h]
    have hfold : encSections.foldl
        (fun (st : ℚ × List (List Char)) sec =>
          let sectionScore := PolicyStore.scoreSectionMatch sec [("encryption".data)]
          if 0 < sectionScore then (st.1 + sectionScore, st.2 ++ [sec.heading]) else st)
        (0, []) = ((1 : ℚ), ["1. Purpose".data]) := by with_unfolding_all decide
    rw [hfold]
    have ht : containsSub (toLowerL ("Encryption Standards".data))
        ("encryption".data) = true := by decide
    rw [if_pos ht]
    simp only [PolicySearchResult.mk.injEq, and_true, true_and]
    norm_num
  have hterms : (splitWsJs ("encryption".data)).filter
      (fun t => decide (2 < t.length)) = [("encryption".data)] := by decide
  simp only [PolicyStore.searchPolicies, PolicyStore.searchPoliciesWith, hq, hterms]
  rw [if_neg (by decide)]
  have hcat : PolicyStore.filterPoliciesByCategory [encPolicy content] none =
      [encPolicy content] := rfl
  rw [hcat]
  simp only [List.map_cons, List.map_nil, hscore]
  have hpos : decide (0 < (12 : ℚ)) = true := by with_unfolding_all decide
  simp only [List.filter, hpos]
  simp [List.insertionSort, List.orderedInsert]

/-- Witness for the amended C3 at the concrete content `encContentEx`. -/
theorem searchPolicies_encryption_scenario_witness :
    PolicyStore.searchPolicies [encPolicy encContentEx] ("encryption".data) none =
      [{ policy := encPolicy encContentEx, matchedSections := ["1. Purpose".data],
         relevanceScore := 12 }] :=
  searchPolicies_encryption_scenario encContentEx (by decide)

/-- C4: for every content-count semantics, store contents and optional
category, `searchPolicies` returns the empty result sequence whenever the
trimmed lowercased query is empty or every whitespace-separated term of it
has length at most 2.  (The model is a total function, so no error can be
raised on this path.) -/
theorem searchPolicies_invalid_query_empty (ccount : List Char → List Char → Nat)
    (policies : List Policy) (category : Option (List Char)) (query : List Char)
    (h : trimL (toLowerL query) = [] ∨
      ∀ t ∈ splitWsJs (trimL (toLowerL query)), t.length ≤ 2) :
    PolicyStore.searchPoliciesWith ccount policies query category = [] := by
  simp only [PolicyStore.searchPoliciesWith]
  rcases h with h | h
  · rw [if_pos (Or.inl h)]
  · rw [if_pos (Or.inr (List.filter_eq_nil_iff.mpr (fun t ht => by
      simpa using Nat.not_lt.mpr (h t ht))))]

/-- Witness for C4 at the query "a b c" on a non-empty store. -/
theorem searchPolicies_invalid_query_empty_witness :
    PolicyStore.searchPoliciesWith countOccur [fooPolicy] ("a b c".data) none = [] :=
  searchPolicies_invalid_query_empty countOccur [fooPolicy] none ("a b c".data)
    (Or.inr (by decide))

/-- C5: for every content-count semantics, query, optional category and
store contents, the result sequence of `searchPolicies` is sorted by
descending relevance score (each adjacent pair is in `scoreGE`), and every
returned result has strictly positive relevance score. -/
theorem searchPolicies_sorted_descending_positive (ccount : List Char → List Char → Nat)
    (policies : List Policy) (query : List Char) (category : Option (List Char)) :
    List.Chain' PolicyStore.scoreGE
      (PolicyStore.searchPoliciesWith ccount policies query category) ∧
    ∀ r ∈ PolicyStore.searchPoliciesWith ccount policies query category,
      0 < r.relevanceScore := by
  constructor
  · simp only [PolicyStore.searchPoliciesWith]
    split
    · exact List.chain'_nil
    · exact (List.sorted_insertionSort PolicyStore.scoreGE _).chain'
  · intro r hr
    simp only [PolicyStore.searchPoliciesWith] at hr
    split at hr
    · simp at hr
    · have hmem := (List.perm_insertionSort PolicyStore.scoreGE _).mem_iff.mp hr
      simpa using (List.mem_filter.mp hmem).2

/-- Witness for C5: a concrete search whose (non-empty) result list has a
first element, which the theorem shows to carry a positive score. -/
theorem searchPolicies_sorted_descending_positive_witness :
    0 < ((PolicyStore.searchPoliciesWith countOccur [fooPolicy]
      ("foo".data) none).headI).relevanceScore :=
  (searchPolicies_sorted_descending_positive countOccur [fooPolicy]
    ("foo".data) none).2 _ (by with_unfolding_all decide)

/-! ### Structural extractor (src/parsers/shared.ts)

The file shared.ts holds two versions of the extractor.  The second copy
(constant HEADING_PATTERNS, helpers tryMatchHeading / extractHeadingInfo /
saveSection) is the one the specification describes; its definitions below
carry the source names.  The first copy differs only in the label group of
the heading patterns — class "any character but newline", unbounded length,
against the second copy's "any character but newline or carriage return"
with length bound 200 — and in its extractTitle; it is embedded with the
suffix V1 for the refinement claim.

Each anchored heading pattern is hand-compiled to a deterministic matcher.
Every quantified subpattern consumes at least one character, so the greedy
(leftmost, all-maximal) attempt is the engine's first; when the label group
would be empty the engine backtracks right-to-left, and because every
candidate label is a suffix of the line ending at its last character, a
failing character test fails all remaining alternatives.  The individual
derivations are noted on each matcher. -/

/-- Digits, the class `\d`. -/
def isDigitCh (c : Char) : Bool := c.isDigit

/-- The punctuation class `[.:-]` of the heading patterns. -/
def isPunctCh (c : Char) : Bool := c == '.' || c == ':' || c == '-'

/-- The class `[IVXLC]` with the case-insensitive flag. -/
def isRomanCh (c : Char) : Bool :=
  c == 'I' || c == 'V' || c == 'X' || c == 'L' || c == 'C' ||
  c == 'i' || c == 'v' || c == 'x' || c == 'l' || c == 'c'

/-- The class `[A-Z]`. -/
def isUpperAZ (c : Char) : Bool := 'A' ≤ c && c ≤ 'Z'

/-- The class `[A-Z\s]` of the all-caps pattern. -/
def isCapsOrWs (c : Char) : Bool := isUpperAZ c || isWsCh c

/-- Whether a candidate label capture satisfies the label group: non-empty,
within the character class `g2c`, within the length bound `g2max`. -/
def labelOk (g2c : Char → Bool) (g2max : Nat) (g2 : List Char) : Bool :=
  !g2.isEmpty && g2.all g2c && decide (g2.length ≤ g2max)

/-- Greedy parse of `(?:\.\d+)` repeated at most `n` times: each group is a
dot followed by a maximal non-empty digit run.  Returns the digit runs
(without their dots) and the remaining input. -/
def takeDotGroups : Nat → List Char → List (List Char) × List Char
  | 0, s => ([], s)
  | n + 1, s =>
    match s with
    | '.' :: t =>
      let ds := t.takeWhile isDigitCh
      if ds.isEmpty then ([], s)
      else
        let (more, rest) := takeDotGroups n (t.dropWhile isDigitCh)
        (ds :: more, rest)
    | _ => ([], s)

/-- Restore the consumed text of parsed dot groups. -/
def renderDotGroups (gs : List (List Char)) : List Char :=
  (gs.map (fun g => '.' :: g)).flatten

/-- Matcher for the numbered-section pattern
`^(\d+(?:\.\d+)a[.:-]?)\s*(G2)$` (`a` bounds the groups by 5, `G2` is the
label group).  The greedy attempt takes maximal digits, maximal dot
groups, the optional punctuation, maximal whitespace; its label is the
shortest candidate, so if it is non-empty the match succeeds or fails with
it.  When it is empty the engine backtracks: give the last whitespace
character to the label; else drop the optional punctuation into the label;
else give the last digit of the last dot group (or, when that group is a
single digit, drop the group, whose dot is then taken by the optional
punctuation and whose digit becomes the label); else give the last digit
of the initial run. -/
def pattern1Match (g2c : Char → Bool) (g2max : Nat) (s : List Char) :
    Option (List Char × List Char) :=
  let d0 := s.takeWhile isDigitCh
  if d0.isEmpty then none
  else
    let r0 := s.dropWhile isDigitCh
    let (grps, r1) := takeDotGroups 5 r0
    let pr : List Char × List Char :=
      match r1 with
      | c :: t => if isPunctCh c then ([c], t) else ([], r1)
      | [] => ([], [])
    let p := pr.1
    let w := pr.2.takeWhile isWsCh
    let rest := pr.2.dropWhile isWsCh
    if !rest.isEmpty then
      if labelOk g2c g2max rest then some (d0 ++ renderDotGroups grps ++ p, rest) else none
    else
      match w.reverse with
      | c :: _ =>
        if labelOk g2c g2max [c] then some (d0 ++ renderDotGroups grps ++ p, [c]) else none
      | [] =>
        match p with
        | c :: _ => if labelOk g2c g2max [c] then some (d0 ++ renderDotGroups grps, [c]) else none
        | [] =>
          match grps.getLast? with
          | some lastGrp =>
            match lastGrp.getLast? with
            | some d =>
              if 2 ≤ lastGrp.length then
                if labelOk g2c g2max [d] then
                  some (d0 ++ renderDotGroups (grps.dropLast ++ [lastGrp.dropLast]), [d])
                else none
              else
                if labelOk g2c g2max lastGrp then
                  some (d0 ++ renderDotGroups grps.dropLast ++ ['.'], lastGrp)
                else none
            | none => none
          | none =>
            match d0.getLast? with
            | some d =>
              if 2 ≤ d0.length then
                if labelOk g2c g2max [d] then some (d0.dropLast, [d]) else none
              else none
            | none => none

/-- Matcher for the Roman-numeral pattern `^([IVXLC]b[.:-])\s*(G2)$`
(case-insensitive, `b` bounds the run by 1 to 10).  Only the maximal Roman
run can be followed by the required punctuation (a shortened run leaves a
Roman character, which is not punctuation, in its place), so the run must
have length at most 10 and be followed by punctuation; then as in
`pattern1Match` the label is the maximal-whitespace remainder, or the last
whitespace character when that remainder is empty. -/
def pattern2Match (g2c : Char → Bool) (g2max : Nat) (s : List Char) :
    Option (List Char × List Char) :=
  let rom := s.takeWhile isRomanCh
  if rom.isEmpty || decide (10 < rom.length) then none
  else
    match s.dropWhile isRomanCh with
    | c :: t =>
      if isPunctCh c then
        let w := t.takeWhile isWsCh
        let rest := t.dropWhile isWsCh
        if !rest.isEmpty then
          if labelOk g2c g2max rest then some (rom ++ [c], rest) else none
        else
          match w.reverse with
          | c2 :: _ => if labelOk g2c g2max [c2] then some (rom ++ [c], [c2]) else none
          | [] => none
      else none
    | [] => none

/-- Matcher for the letter-section pattern `^([A-Z][.:-])\s*(G2)$`: one
uppercase letter, one punctuation character, then the label as in
`pattern2Match`. -/
def pattern3Match (g2c : Char → Bool) (g2max : Nat) (s : List Char) :
    Option (List Char × List Char) :=
  match s with
  | c :: p :: t =>
    if isUpperAZ c && isPunctCh p then
      let w := t.takeWhile isWsCh
      let rest := t.dropWhile isWsCh
      if !rest.isEmpty then
        if labelOk g2c g2max rest then some ([c, p], rest) else none
      else
        match w.reverse with
        | c2 :: _ => if labelOk g2c g2max [c2] then some ([c, p], [c2]) else none
        | [] => none
    else none
  | _ => none

/-- Matcher for the abbreviation pattern `^([A-Z]d)\s+([A-Z]G2t)$` (`d`
bounds the run by 2 to 4, `G2t` is the label tail class).  Only the
maximal uppercase run can be followed by the required whitespace, so the
run length must lie in 2 to 4; `\s+` is greedy and giving whitespace back
would put a non-uppercase character where `[A-Z]` is required, so the
second group starts exactly after the whitespace run. -/
def pattern4Match (g2c : Char → Bool) (g2max : Nat) (s : List Char) :
    Option (List Char × List Char) :=
  let caps := s.takeWhile isUpperAZ
  if decide (caps.length < 2) || decide (4 < caps.length) then none
  else
    let r0 := s.dropWhile isUpperAZ
    if (r0.takeWhile isWsCh).isEmpty then none
    else
      match r0.dropWhile isWsCh with
      | c :: tail =>
        if isUpperAZ c && !tail.isEmpty && tail.all g2c && decide (tail.length ≤ g2max) then
          some (caps, c :: tail)
        else none
      | [] => none

/-- Matcher for the all-caps pattern `^([A-Z][A-Z\s]e)$` (`e` bounds the
run by 3 to 100): the quantified class must reach the end of the line
exactly, so the line matches iff its head is uppercase and its tail has
length 3 to 100 within the class. -/
def pattern5Match (s : List Char) : Option (List Char) :=
  match s with
  | c :: rest =>
    if isUpperAZ c && decide (3 ≤ rest.length) && decide (rest.length ≤ 100) &&
        rest.all isCapsOrWs then
      some s
    else none
  | [] => none

/-- A classified heading: interface HeadingMatch of the second copy. -/
structure HeadingMatch where
  heading : List Char
  level : Nat
deriving DecidableEq, Inhabited

/-- The source's `match[1].replace(/[.:-]$/, "")`: remove one trailing
punctuation character. -/
def stripTrailPunct (g1 : List Char) : List Char :=
  match g1.reverse with
  | c :: t => if isPunctCh c then t.reverse else g1
  | [] => g1

/-- `extractHeadingInfo`: with a second capture group the heading is the
trimmed `match[1] ++ " " ++ match[2]` and the level is one plus the dot
count of `match[1]` with trailing punctuation removed; otherwise the
heading is the trimmed `match[1]` at level 1. -/
def extractHeadingInfo (g1 : List Char) (g2 : Option (List Char)) : HeadingMatch :=
  match g2 with
  | some m2 =>
    { heading := trimL (g1 ++ ' ' :: m2),
      level := (stripTrailPunct g1).count '.' + 1 }
  | none => { heading := trimL g1, level := 1 }

/-- `tryMatchHeading` over a given label class and bound: try the five
heading patterns in source order, first match wins. -/
def tryMatchHeadingGen (g2c : Char → Bool) (g2max : Nat) (s : List Char) :
    Option HeadingMatch :=
  match pattern1Match g2c g2max s with
  | some (g1, g2) => some (extractHeadingInfo g1 (some g2))
  | none =>
  match pattern2Match g2c g2max s with
  | some (g1, g2) => some (extractHeadingInfo g1 (some g2))
  | none =>
  match pattern3Match g2c g2max s with
  | some (g1, g2) => some (extractHeadingInfo g1 (some g2))
  | none =>
  match pattern4Match g2c g2max s with
  | some (g1, g2) => some (extractHeadingInfo g1 (some g2))
  | none =>
  match pattern5Match s with
  | some g1 => some (extractHeadingInfo g1 none)
  | none => none

/-- Label class of the second copy: `[^\n\r]`. -/
def g2cV2 (c : Char) : Bool := c != '\n' && c != '\r'

/-- Label class of the first copy: `[^\n]`. -/
def g2cV1 (c : Char) : Bool := c != '\n'

/-- `tryMatchHeading` of the second copy: label class `[^\n\r]`, label
length bound 200. -/
def tryMatchHeading (s : List Char) : Option HeadingMatch :=
  tryMatchHeadingGen g2cV2 200 s

/-- The heading classifier of the first copy's inline pattern loop: label
class `[^\n]`, unbounded label length (the bound `s.length` never binds,
since every candidate label is part of `s`). -/
def tryMatchHeadingV1 (s : List Char) : Option HeadingMatch :=
  tryMatchHeadingGen g2cV1 s.length s

/-- Loop state of extractSections: output sections, the open section's
heading and level, and the buffered content lines. -/
structure ExtractState where
  sections : List PolicySection
  current : Option (List Char × Nat)
  buffer : List (List Char)
deriving DecidableEq, Inhabited

/-- `saveSection`: close the open section, joining its buffered lines with
newline and trimming; a section whose content trims to empty is
discarded. -/
def saveSection (cur : Option (List Char × Nat)) (buffer : List (List Char))
    (sections : List PolicySection) : List PolicySection :=
  match cur with
  | none => sections
  | some (h, lvl) =>
    let c := trimL (List.intercalate ['\n'] buffer)
    if c.isEmpty then sections
    else sections ++ [{ heading := h, content := c, level := lvl }]

/-- One iteration of the extractSections line loop: skip blank lines; on an
accepted heading (classified, with composed heading length strictly
between 2 and 200) save the open section and open a new one; otherwise
buffer the trimmed line when a section is open. -/
def extractStepWith (tryMatch : List Char → Option HeadingMatch)
    (st : ExtractState) (line : List Char) : ExtractState :=
  let t := trimL line
  if t.isEmpty then st
  else
    match tryMatch t with
    | some hm =>
      if 2 < hm.heading.length ∧ hm.heading.length < 200 then
        { sections := saveSection st.current st.buffer st.sections,
          current := some (hm.heading, hm.level),
          buffer := [] }
      else
        match st.current with
        | none => st
        | some _ => { st with buffer := st.buffer ++ [t] }
    | none =>
      match st.current with
      | none => st
      | some _ => { st with buffer := st.buffer ++ [t] }

/-- `extractSections` over a given heading classifier: fold the line loop
over `content.split("\n")` and close the final open section. -/
def extractSectionsWith (tryMatch : List Char → Option HeadingMatch)
    (content : List Char) : List PolicySection :=
  let final := (splitNl content).foldl (extractStepWith tryMatch)
    { sections := [], current := none, buffer := [] }
  saveSection final.current final.buffer final.sections

/-- `extractSections` of the second copy. -/
def extractSections (content : List Char) : List PolicySection :=
  extractSectionsWith tryMatchHeading content

/-- `extractSections` of the first copy. -/
def extractSectionsV1 (content : List Char) : List PolicySection :=
  extractSectionsWith tryMatchHeadingV1 content

/-! ### extractTitle, both copies -/

/-- Metadata-skip test of the second copy's extractTitle, applied to the
lowercased trimmed line. -/
def skipLineV2 (lower : List Char) : Bool :=
  containsSub lower ("page ".data) ||
  leadsWith ("date".data) lower ||
  leadsWith ("version".data) lower ||
  leadsWith ("effective".data) lower ||
  leadsWith ("revision".data) lower ||
  leadsWith ("rev ".data) lower

/-- The second copy's test `/^[A-Z]/.test(line)`. -/
def startsUpperAZ (line : List Char) : Bool :=
  match line with
  | c :: _ => isUpperAZ c
  | [] => false

/-- Title-acceptance test of the second copy: length strictly between 5 and
150, starts with an uppercase letter, and splits into at least two
whitespace-separated words. -/
def titleAcceptV2 (line : List Char) : Bool :=
  decide (5 < line.length) && decide (line.length < 150) && startsUpperAZ line &&
    decide (2 ≤ (splitWsJs line).length)

/-- The scan loop of the second copy's extractTitle: at most `n` lines; a
line matching the metadata skip, or failing the acceptance test, is
skipped. -/
def titleScanV2 : Nat → List (List Char) → Option (List Char)
  | 0, _ => none
  | _, [] => none
  | n + 1, l :: ls =>
    let line := trimL l
    if skipLineV2 (toLowerL line) then titleScanV2 n ls
    else if titleAcceptV2 line then some line
    else titleScanV2 n ls

/-- JavaScript `filePath.split("/").pop() || filePath`: the last path
component, or the whole path when that component is empty. -/
def basenameJs (p : List Char) : List Char :=
  match (splitOnCh '/' p).getLast? with
  | some lastc => if lastc.isEmpty then p else lastc
  | none => p

/-- Case-insensitive suffix test. -/
def endsWithCI (s suffix : List Char) : Bool :=
  leadsWith (toLowerL suffix).reverse (toLowerL s).reverse

/-- The fallback `fileName.replace(/\.(pdf|docx|md)$/i, "")`: strip one
case-insensitive document extension from the end. -/
def stripDocExt (name : List Char) : List Char :=
  if endsWithCI name (".pdf".data) then name.take (name.length - 4)
  else if endsWithCI name (".docx".data) then name.take (name.length - 5)
  else if endsWithCI name (".md".data) then name.take (name.length - 3)
  else name

/-- `extractTitle` of the second copy: scan the first 10 non-blank lines
with `titleScanV2`; when none qualifies fall back to the filename with its
extension stripped. -/
def extractTitle (content filePath : List Char) : List Char :=
  let lines := (splitNl content).filter (fun l => !(trimL l).isEmpty)
  match titleScanV2 10 lines with
  | some line => line
  | none => stripDocExt (basenameJs filePath)

/-- The alternatives of the first copy's metadata prefix pattern. -/
def metadataWordsV1 : List (List Char) :=
  ["page".data, "date".data, "version".data, "effective".data, "revision".data,
   "rev".data, "dated".data, "some".data, "test".data, "content".data]

/-- The first copy's test of its metadata pattern against a line:
case-insensitive prefix match of any alternative. -/
def metadataV1 (line : List Char) : Bool :=
  metadataWordsV1.any (fun w => leadsWith w (toLowerL line))

/-- The first copy's test `line[0] === line[0].toUpperCase()`: the first
character is its own upper-case image (true for digits and punctuation). -/
def firstCharIsOwnUpper (line : List Char) : Bool :=
  match line with
  | c :: _ => c.toUpper == c
  | [] => false

/-- The scan loop of the first copy's extractTitle: at most `n` lines;
accepts a line of length strictly between 5 and 150 that does not match
the metadata pattern and whose first character is its own upper-case
image. -/
def titleScanV1 : Nat → List (List Char) → Option (List Char)
  | 0, _ => none
  | _, [] => none
  | n + 1, l :: ls =>
    let line := trimL l
    if decide (5 < line.length) && decide (line.length < 150) && !metadataV1 line &&
        firstCharIsOwnUpper line then some line
    else titleScanV1 n ls

/-- `extractTitle` of the first copy: scan the first 5 non-blank lines with
`titleScanV1`; same filename fallback as the second copy. -/
def extractTitleV1 (content filePath : List Char) : List Char :=
  let lines := (splitNl content).filter (fun l => !(trimL l).isEmpty)
  match titleScanV1 5 lines with
  | some line => line
  | none => stripDocExt (basenameJs filePath)

/-! ### Helper lemmas on trimming and the pattern captures -/

theorem dropWhile_dropWhile (p : Char → Bool) (l : List Char) :
    (l.dropWhile p).dropWhile p = l.dropWhile p := by
  induction l with
  | nil => rfl
  | cons c t ih =>
    by_cases hc : p c = true
    · rw [List.dropWhile_cons_of_pos hc]; exact ih
    · rw [List.dropWhile_cons_of_neg hc, List.dropWhile_cons_of_neg hc]

/-- A list whose head (if any) is not whitespace. -/
def noLeadWs (x : List Char) : Prop :=
  ∀ c, x.head? = some c → isWsCh c = false

theorem noLeadWs_dropWhile (x : List Char) : noLeadWs (x.dropWhile isWsCh) := by
  intro c hc
  induction x with
  | nil => simp [List.dropWhile] at hc
  | cons d t ih =>
    by_cases hd : isWsCh d = true
    · rw [List.dropWhile_cons_of_pos hd] at hc; exact ih hc
    · rw [List.dropWhile_cons_of_neg hd] at hc
      simp at hc
      rw [← hc]
      simpa using hd

theorem dropWhile_of_noLeadWs (x : List Char) (h : noLeadWs x) :
    x.dropWhile isWsCh = x := by
  cases x with
  | nil => rfl
  | cons c t =>
    rw [List.dropWhile_cons_of_neg]
    simp [h c rfl]

theorem getLast?_dropWhile_ws (x : List Char) (hne : x.dropWhile isWsCh ≠ []) :
    (x.dropWhile isWsCh).getLast? = x.getLast? := by
  induction x with
  | nil => exact absurd rfl hne
  | cons c t ih =>
    by_cases hc : isWsCh c = true
    · rw [List.dropWhile_cons_of_pos hc] at hne ⊢
      have ht : t ≠ [] := by
        intro h0
        rw [h0] at hne
        exact hne rfl
      rw [ih hne]
      cases t with
      | nil => exact absurd rfl ht
      | cons d u => rw [List.getLast?_cons_cons]
    · rw [List.dropWhile_cons_of_neg hc]

theorem noLeadWs_trimL (l : List Char) : noLeadWs (trimL l) := by
  intro c hc
  unfold trimL at hc
  rw [List.head?_reverse] at hc
  have hSne : ((l.dropWhile isWsCh).reverse.dropWhile isWsCh) ≠ [] := by
    intro h0
    rw [h0] at hc
    exact nomatch hc
  rw [getLast?_dropWhile_ws _ hSne, List.getLast?_reverse] at hc
  exact noLeadWs_dropWhile l c hc

theorem trimL_idem (l : List Char) : trimL (trimL l) = trimL l := by
  have h1 : (trimL l).dropWhile isWsCh = trimL l :=
    dropWhile_of_noLeadWs _ (noLeadWs_trimL l)
  have h2 : (trimL l).reverse = (l.dropWhile isWsCh).reverse.dropWhile isWsCh := by
    unfold trimL
    rw [List.reverse_reverse]
  show (((trimL l).dropWhile isWsCh).reverse.dropWhile isWsCh).reverse = trimL l
  rw [h1, h2, dropWhile_dropWhile]
  unfold trimL
  rfl

theorem upper_not_punct (c : Char) (h : isUpperAZ c = true) : isPunctCh c = false := by
  have h1 : 'A' ≤ c ∧ c ≤ 'Z' := by simpa [isUpperAZ] using h
  simp only [isPunctCh, Bool.or_eq_false_iff, beq_eq_false_iff_ne]
  refine ⟨⟨?_, ?_⟩, ?_⟩ <;> rintro rfl <;> revert h1 <;> decide

theorem roman_ne_dot (d : Char) (h : isRomanCh d = true) : d ≠ '.' := by
  rintro rfl
  exact absurd h (by decide)

theorem upper_ne_dot (d : Char) (h : isUpperAZ d = true) : d ≠ '.' := by
  rintro rfl
  exact absurd h (by decide)

theorem stripTrailPunct_append_punct (l : List Char) (c : Char) (hc : isPunctCh c = true) :
    stripTrailPunct (l ++ [c]) = l := by
  unfold stripTrailPunct
  rw [List.reverse_append]
  simp [hc]

theorem count_dot_zero (l : List Char) (h : ∀ d ∈ l, d ≠ '.') : l.count '.' = 0 :=
  List.count_eq_zero.mpr (fun hm => h _ hm rfl)

theorem stripTrailPunct_all_upper (l : List Char) (h : ∀ d ∈ l, isUpperAZ d = true) :
    stripTrailPunct l = l := by
  unfold stripTrailPunct
  cases hr : l.reverse with
  | nil => rfl
  | cons c t =>
    have hcl : c ∈ l := by
      have hm : c ∈ l.reverse := hr ▸ List.mem_cons_self c t
      simpa using hm
    simp [upper_not_punct c (h c hcl)]

theorem pattern2Match_g1 (g2c : Char → Bool) (g2max : Nat) (s g1 g2 : List Char)
    (h : pattern2Match g2c g2max s = some (g1, g2)) :
    ∃ c, g1 = s.takeWhile isRomanCh ++ [c] ∧ isPunctCh c = true := by
  unfold pattern2Match at h
  repeat' split at h
  all_goals simp_all
  rename_i c t heq hp
  obtain ⟨-, h⟩ := h
  repeat' split at h
  all_goals simp_all
  · exact ⟨c, h.1.symm, hp⟩
  · exact ⟨c, h.1.symm, hp⟩

theorem pattern3Match_g1 (g2c : Char → Bool) (g2max : Nat) (s g1 g2 : List Char)
    (h : pattern3Match g2c g2max s = some (g1, g2)) :
    ∃ c p, g1 = [c, p] ∧ isUpperAZ c = true ∧ isPunctCh p = true := by
  unfold pattern3Match at h
  repeat' split at h
  all_goals simp_all
  rename_i c p t hcp
  repeat' split at h
  all_goals simp_all
  · exact ⟨c, p, h.1.symm, hcp.1, hcp.2⟩
  · exact ⟨c, p, h.1.symm, hcp.1, hcp.2⟩

theorem pattern4Match_g1 (g2c : Char → Bool) (g2max : Nat) (s g1 g2 : List Char)
    (h : pattern4Match g2c g2max s = some (g1, g2)) :
    g1 = s.takeWhile isUpperAZ := by
  unfold pattern4Match at h
  simp_all
  obtain ⟨-, -, h⟩ := h
  repeat' split at h
  all_goals simp_all

/-! ### Claims about the extractor -/

/-- C6: in the extractSections line loop, a non-blank line classified as a
heading opens a new section (fresh current section and empty buffer) if and
only if the composed heading string's length is strictly greater than 2 and
strictly less than 200; otherwise the line is treated as content. -/
theorem heading_boundary_iff (st : ExtractState) (line : List Char) (hm : HeadingMatch)
    (hne : (trimL line).isEmpty = false)
    (hcl : tryMatchHeading (trimL line) = some hm) :
    ((extractStepWith tryMatchHeading st line).current = some (hm.heading, hm.level) ∧
      (extractStepWith tryMatchHeading st line).buffer = []) ↔
    (2 < hm.heading.length ∧ hm.heading.length < 200) := by
  simp only [extractStepWith, hne, Bool.false_eq_true, if_false, hcl]
  by_cases hb : 2 < hm.heading.length ∧ hm.heading.length < 200
  · rw [if_pos hb]
    simp [hb]
  · rw [if_neg hb]
    cases hc : st.current with
    | none => simp [hc, hb]
    | some v => simp [hc, hb]

/-- Witness for C6: the line "1." is classified with composed heading
"1 ." of length exactly 3 — the lower boundary — and opens a section. -/
theorem heading_boundary_iff_witness :
    (extractStepWith tryMatchHeading { sections := [], current := none, buffer := [] }
      ("1.".data)).current = some ("1 .".data, 1) ∧
    (extractStepWith tryMatchHeading { sections := [], current := none, buffer := [] }
      ("1.".data)).buffer = [] :=
  (heading_boundary_iff { sections := [], current := none, buffer := [] } ("1.".data)
    { heading := "1 .".data, level := 1 } (by decide) (by decide)).mpr (by decide)

/-- C7: when a line matches the numbered-section pattern, the classified
level is the dot count of the numeric prefix capture, after stripping its
single trailing punctuation character, plus one; lines classified by the
Roman-numeral, single-letter, abbreviation or all-caps pattern get
level 1. -/
theorem heading_level_rule
    (s1 g1 g2 s2 s3 s4 s5 : List Char)
    (r2 r3 r4 : List Char × List Char) (r5 : List Char)
    (h1 : pattern1Match g2cV2 200 s1 = some (g1, g2))
    (h2a : pattern1Match g2cV2 200 s2 = none)
    (h2 : pattern2Match g2cV2 200 s2 = some r2)
    (h3a : pattern1Match g2cV2 200 s3 = none)
    (h3b : pattern2Match g2cV2 200 s3 = none)
    (h3 : pattern3Match g2cV2 200 s3 = some r3)
    (h4a : pattern1Match g2cV2 200 s4 = none)
    (h4b : pattern2Match g2cV2 200 s4 = none)
    (h4c : pattern3Match g2cV2 200 s4 = none)
    (h4 : pattern4Match g2cV2 200 s4 = some r4)
    (h5a : pattern1Match g2cV2 200 s5 = none)
    (h5b : pattern2Match g2cV2 200 s5 = none)
    (h5c : pattern3Match g2cV2 200 s5 = none)
    (h5d : pattern4Match g2cV2 200 s5 = none)
    (h5 : pattern5Match s5 = some r5) :
    (tryMatchHeading s1).map HeadingMatch.level =
      some ((stripTrailPunct g1).count '.' + 1) ∧
    (tryMatchHeading s2).map HeadingMatch.level = some 1 ∧
    (tryMatchHeading s3).map HeadingMatch.level = some 1 ∧
    (tryMatchHeading s4).map HeadingMatch.level = some 1 ∧
    (tryMatchHeading s5).map HeadingMatch.level = some 1 := by
  refine ⟨?_, ?_, ?_, ?_, ?_⟩
  · unfold tryMatchHeading tryMatchHeadingGen
    rw [h1]
    rfl
  · obtain ⟨g21, g22⟩ := r2
    obtain ⟨c, hg1, hc⟩ := pattern2Match_g1 _ _ _ _ _ h2
    unfold tryMatchHeading tryMatchHeadingGen
    rw [h2a, h2]
    simp only [Option.map_some, extractHeadingInfo, Option.some.injEq]
    rw [hg1, stripTrailPunct_append_punct _ _ hc,
      count_dot_zero _ (fun d hd => roman_ne_dot d (List.mem_takeWhile_imp hd))]
    rfl
  · obtain ⟨g31, g32⟩ := r3
    obtain ⟨c, p, hg1, hcu, hp⟩ := pattern3Match_g1 _ _ _ _ _ h3
    unfold tryMatchHeading tryMatchHeadingGen
    rw [h3a, h3b, h3]
    simp only [Option.map_some, extractHeadingInfo, Option.some.injEq]
    have : stripTrailPunct g31 = [c] := by
      rw [hg1]
      exact stripTrailPunct_append_punct [c] p hp
    rw [this, count_dot_zero _ (by
      intro d hd
      rw [List.mem_singleton] at hd
      exact hd ▸ upper_ne_dot c hcu)]
    rfl
  · obtain ⟨g41, g42⟩ := r4
    have hg1 := pattern4Match_g1 _ _ _ _ _ h4
    unfold tryMatchHeading tryMatchHeadingGen
    rw [h4a, h4b, h4c, h4]
    simp only [Option.map_some, extractHeadingInfo, Option.some.injEq]
    rw [hg1, stripTrailPunct_all_upper _ (fun d hd => List.mem_takeWhile_imp hd),
      count_dot_zero _ (fun d hd => upper_ne_dot d (List.mem_takeWhile_imp hd))]
    rfl
  · unfold tryMatchHeading tryMatchHeadingGen
    rw [h5a, h5b, h5c, h5d, h5]
    rfl

/-- Witness for C7 at the headings "1.2.3 Foo" (level 3), "II. Scope",
"A. Intro", "ABC Policy" and "PURPOSE AND SCOPE" (level 1 each). -/
theorem heading_level_rule_witness :
    (tryMatchHeading ("1.2.3 Foo".data)).map HeadingMatch.level =
      some ((stripTrailPunct ("1.2.3".data)).count '.' + 1) ∧
    (tryMatchHeading ("II. Scope".data)).map HeadingMatch.level = some 1 ∧
    (tryMatchHeading ("A. Intro".data)).map HeadingMatch.level = some 1 ∧
    (tryMatchHeading ("ABC Policy".data)).map HeadingMatch.level = some 1 ∧
    (tryMatchHeading ("PURPOSE AND SCOPE".data)).map HeadingMatch.level = some 1 :=
  heading_level_rule ("1.2.3 Foo".data) ("1.2.3".data) ("Foo".data)
    ("II. Scope".data) ("A. Intro".data) ("ABC Policy".data) ("PURPOSE AND SCOPE".data)
    (("II.".data, "Scope".data)) (("A.".data, "Intro".data)) (("ABC".data, "Policy".data))
    ("PURPOSE AND SCOPE".data)
    (by decide) (by decide) (by decide) (by decide) (by decide) (by decide) (by decide)
    (by decide) (by decide) (by decide) (by decide) (by decide) (by decide) (by decide)
    (by decide)

/-- The C8 invariant on a section list. -/
def sectionsTrimmedNonempty (secs : List PolicySection) : Prop :=
  ∀ sec ∈ secs, (trimL sec.content).isEmpty = false

theorem saveSection_trimmedNonempty (cur : Option (List Char × Nat))
    (buf : List (List Char)) (secs : List PolicySection)
    (h : sectionsTrimmedNonempty secs) :
    sectionsTrimmedNonempty (saveSection cur buf secs) := by
  unfold saveSection
  cases cur with
  | none => exact h
  | some v =>
    obtain ⟨hd, lvl⟩ := v
    by_cases hc : (trimL (List.intercalate ['\n'] buf)).isEmpty = true
    · simp only [hc, if_true]
      exact h
    · simp only [hc, if_false]
      intro sec hs
      rcases List.mem_append.mp hs with hs | hs
      · exact h sec hs
      · rw [List.mem_singleton] at hs
        subst hs
        show (trimL (trimL (List.intercalate ['\n'] buf))).isEmpty = false
        rw [trimL_idem]
        simpa using hc

theorem extractStep_trimmedNonempty (tm : List Char → Option HeadingMatch)
    (st : ExtractState) (line : List Char)
    (h : sectionsTrimmedNonempty st.sections) :
    sectionsTrimmedNonempty (extractStepWith tm st line).sections := by
  unfold extractStepWith
  by_cases hne : (trimL line).isEmpty = true
  · simpa [hne] using h
  · simp only [hne, Bool.false_eq_true, if_false]
    cases htm : tm (trimL line) with
    | none =>
      cases hc : st.current with
      | none => simpa [htm, hc] using h
      | some v => simpa [htm, hc] using h
    | some hm =>
      by_cases hb : 2 < hm.heading.length ∧ hm.heading.length < 200
      · simp only [htm, hb, if_true]
        exact saveSection_trimmedNonempty _ _ _ h
      · simp only [htm, hb, if_false]
        cases hc : st.current with
        | none => simpa [hc] using h
        | some v => simpa [hc] using h

/-- C8: every section produced by extractSections has content that is
non-empty after trimming — sections whose accumulated content trims to the
empty string are discarded, both at an accepted heading boundary and at
end of input. -/
theorem extractSections_content_trimmed_nonempty (content : List Char) :
    ∀ sec ∈ extractSections content, (trimL sec.content).isEmpty = false := by
  have hfold : ∀ (lines : List (List Char)) (st : ExtractState),
      sectionsTrimmedNonempty st.sections →
      sectionsTrimmedNonempty
        ((lines.foldl (extractStepWith tryMatchHeading) st).sections) := by
    intro lines
    induction lines with
    | nil => intro st h; exact h
    | cons l ls ih =>
      intro st h
      exact ih _ (extractStep_trimmedNonempty _ _ _ h)
  exact saveSection_trimmedNonempty _ _ _
    (hfold (splitNl content) { sections := [], current := none, buffer := [] }
      (fun sec hs => nomatch hs))

/-- Witness for C8: a concrete extraction with one surviving section. -/
theorem extractSections_content_trimmed_nonempty_witness :
    (trimL (("body".data : List Char))).isEmpty = false :=
  extractSections_content_trimmed_nonempty ("1. Head\nbody".data)
    { heading := "1. Head".data, content := "body".data, level := 1 } (by decide)

/-- The scan loop of the second copy's extractTitle agrees with searching
the first `n` trimmed lines for the first non-skipped accepted line. -/
theorem titleScanV2_eq_find (n : Nat) (ls : List (List Char)) :
    titleScanV2 n ls = ((ls.take n).map trimL).find?
      (fun line => !skipLineV2 (toLowerL line) && titleAcceptV2 line) := by
  induction n generalizing ls with
  | zero => cases ls <;> rfl
  | succ n ih =>
    cases ls with
    | nil => rfl
    | cons l t =>
      rw [List.take_succ_cons, List.map_cons]
      unfold titleScanV2
      by_cases hs : skipLineV2 (toLowerL (trimL l)) = true
      · rw [if_pos hs, List.find?_cons_of_neg _ (by simp [hs]), ih]
      · rw [Bool.not_eq_true] at hs
        rw [if_neg (by simp [hs])]
        by_cases ha : titleAcceptV2 (trimL l) = true
        · rw [if_pos ha, List.find?_cons_of_pos _ (by simp [hs, ha])]
        · rw [Bool.not_eq_true] at ha
          rw [if_neg (by simp [ha]), List.find?_cons_of_neg _ (by simp [ha]), ih]

/-- C9: extractTitle returns the first of the first 10 non-blank (trimmed)
lines that is not skipped as metadata (lowercased form containing "page "
or starting with "date", "version", "effective", "revision" or "rev ") and
that has length strictly between 5 and 150, starts with an uppercase
letter, and has at least two whitespace-separated words; when no such line
exists it returns the filename with a case-insensitive .pdf, .docx or .md
extension stripped.  Conjoined: a concrete skip-then-accept run and a
concrete fallback run. -/
theorem extractTitle_scan_rule :
    (∀ content filePath : List Char,
      extractTitle content filePath =
        match (List.map trimL (List.take 10
            (List.filter (fun l => !(trimL l).isEmpty) (splitNl content)))).find?
            (fun line => !skipLineV2 (toLowerL line) && titleAcceptV2 line) with
        | some line => line
        | none => stripDocExt (basenameJs filePath)) ∧
    extractTitle ("page 3\nDate: 2024\nAcceptable Use Policy\nrest".data) ("f.md".data) =
      "Acceptable Use Policy".data ∧
    extractTitle ("all lowercase line\nshort".data) ("docs/Remote-Work.DOCX".data) =
      "Remote-Work".data := by
  refine ⟨?_, by decide, by decide⟩
  intro content filePath
  simp only [extractTitle]
  rw [titleScanV2_eq_find]

/-! ### The two copies of shared.ts (refinement claim) -/

/-- C10 (counterexample): the two copies are not extensionally equal.  On
content with an interior carriage return in a heading line the first copy
detects a section that the second copy does not (its bounded label class
excludes carriage returns), and on a first line starting with "test"
(case-insensitively) the first copy's title scan skips while the second
accepts. -/
theorem sharedTs_copies_differ :
    extractSectionsV1 ("1. Hi\rX\nY".data) =
      [{ heading := "1. Hi\rX".data, content := "Y".data, level := 1 }] ∧
    extractSections ("1. Hi\rX\nY".data) = [] ∧
    decide (extractSectionsV1 ("1. Hi\rX\nY".data) =
      extractSections ("1. Hi\rX\nY".data)) = false ∧
    extractTitleV1 ("Test Policy Document\nbody here".data) ("x.md".data) = "x".data ∧
    extractTitle ("Test Policy Document\nbody here".data) ("x.md".data) =
      "Test Policy Document".data ∧
    decide (extractTitleV1 ("Test Policy Document\nbody here".data) ("x.md".data) =
      extractTitle ("Test Policy Document\nbody here".data) ("x.md".data)) = false := by
  decide

/-! ### Restricted agreement of the two copies (C10, amended) -/


theorem all_ne_cr (x : List Char) (hxr : ∀ c ∈ x, c ≠ '\r') :
    x.all g2cV2 = x.all g2cV1 := by
  induction x with
  | nil => rfl
  | cons c t ih =>
    simp only [List.all_cons, g2cV2, g2cV1] at ih ⊢
    have hc : (c != '\r') = true := by
      simpa [bne] using hxr c (List.mem_cons_self c t)
    rw [hc, Bool.and_true, ih (fun d hd => hxr d (List.mem_cons_of_mem c hd))]

theorem labelOk_eq_of_sub (s x : List Char) (N : Nat)
    (hcr : ∀ c ∈ s, c ≠ '\r') (hlen : s.length ≤ 200) (hN : s.length ≤ N)
    (hx : x.Sublist s) : labelOk g2cV1 N x = labelOk g2cV2 200 x := by
  unfold labelOk
  rw [all_ne_cr x (fun c hc => hcr c (hx.subset hc))]
  have h1 : decide (x.length ≤ N) = true := decide_eq_true (le_trans hx.length_le hN)
  have h2 : decide (x.length ≤ 200) = true := decide_eq_true (le_trans hx.length_le hlen)
  rw [h1, h2]

theorem takeDotGroups_sub (n : Nat) : ∀ (r : List Char),
    (takeDotGroups n r).2.Sublist r ∧ ∀ g ∈ (takeDotGroups n r).1, g.Sublist r := by
  induction n with
  | zero => intro r; exact ⟨List.Sublist.refl r, by simp [takeDotGroups]⟩
  | succ n ih =>
    intro r
    unfold takeDotGroups
    split
    · rename_i t
      by_cases hds : (t.takeWhile isDigitCh).isEmpty = true
      · simp only [hds, if_true]
        exact ⟨List.Sublist.refl _, by simp⟩
      · simp only [hds, Bool.false_eq_true, if_false]
        obtain ⟨h2, h1⟩ := ih (t.dropWhile isDigitCh)
        rcases hg : takeDotGroups n (t.dropWhile isDigitCh) with ⟨more, rest⟩
        rw [hg] at h2 h1
        refine ⟨?_, ?_⟩
        · exact h2.trans ((List.dropWhile_sublist _).trans (List.sublist_cons_self _ _))
        · intro g hg2
          rcases List.mem_cons.mp hg2 with rfl | hgm
          · exact (List.takeWhile_sublist _).trans (List.sublist_cons_self _ _)
          · exact (h1 g hgm).trans
              ((List.dropWhile_sublist _).trans (List.sublist_cons_self _ _))
    · exact ⟨List.Sublist.refl _, by simp⟩

theorem pattern1_tail_congr (s : List Char) (N : Nat)
    (hlab : ∀ x : List Char, x.Sublist s → labelOk g2cV1 N x = labelOk g2cV2 200 x)
    (grps : List (List Char)) (hgrp : ∀ g ∈ grps, g.Sublist s) :
    (match grps.getLast? with
     | some lastGrp =>
       match lastGrp.getLast? with
       | some d =>
         if 2 ≤ lastGrp.length then
           if labelOk g2cV1 N [d] then
             some (s.takeWhile isDigitCh ++
               renderDotGroups (grps.dropLast ++ [lastGrp.dropLast]), [d])
           else none
         else
           if labelOk g2cV1 N lastGrp then
             some (s.takeWhile isDigitCh ++ renderDotGroups grps.dropLast ++ ['.'], lastGrp)
           else none
       | none => none
     | none =>
       match (s.takeWhile isDigitCh).getLast? with
       | some d =>
         if 2 ≤ (s.takeWhile isDigitCh).length then
           if labelOk g2cV1 N [d] then some ((s.takeWhile isDigitCh).dropLast, [d]) else none
         else none
       | none => none) =
    (match grps.getLast? with
     | some lastGrp =>
       match lastGrp.getLast? with
       | some d =>
         if 2 ≤ lastGrp.length then
           if labelOk g2cV2 200 [d] then
             some (s.takeWhile isDigitCh ++
               renderDotGroups (grps.dropLast ++ [lastGrp.dropLast]), [d])
           else none
         else
           if labelOk g2cV2 200 lastGrp then
             some (s.takeWhile isDigitCh ++ renderDotGroups grps.dropLast ++ ['.'], lastGrp)
           else none
       | none => none
     | none =>
       match (s.takeWhile isDigitCh).getLast? with
       | some d =>
         if 2 ≤ (s.takeWhile isDigitCh).length then
           if labelOk g2cV2 200 [d] then some ((s.takeWhile isDigitCh).dropLast, [d]) else none
         else none
       | none => none) := by
  cases hl : grps.getLast? with
  | none =>
    simp only []
    cases hld : (s.takeWhile isDigitCh).getLast? with
    | none => rfl
    | some d =>
      have hd : [d].Sublist s := List.singleton_sublist.mpr
        ((List.takeWhile_sublist _).subset (List.mem_of_getLast?_eq_some hld))
      by_cases h2 : 2 ≤ (s.takeWhile isDigitCh).length
      · simp only [h2, if_true, hlab [d] hd]
      · simp only [h2, if_false]
  | some lastGrp =>
    simp only []
    have hlg : lastGrp.Sublist s := hgrp _ (List.mem_of_getLast?_eq_some hl)
    cases hld : lastGrp.getLast? with
    | none => rfl
    | some d =>
      have hd : [d].Sublist s := List.singleton_sublist.mpr
        (hlg.subset (List.mem_of_getLast?_eq_some hld))
      by_cases h2 : 2 ≤ lastGrp.length
      · simp only [h2, if_true, hlab [d] hd]
      · simp only [h2, if_false, hlab lastGrp hlg]

theorem pattern1Match_congr (s : List Char) (N : Nat)
    (hcr : ∀ c ∈ s, c ≠ '\r') (hlen : s.length ≤ 200) (hN : s.length ≤ N) :
    pattern1Match g2cV1 N s = pattern1Match g2cV2 200 s := by
  have hlab : ∀ x : List Char, x.Sublist s → labelOk g2cV1 N x = labelOk g2cV2 200 x :=
    fun x hx => labelOk_eq_of_sub s x N hcr hlen hN hx
  unfold pattern1Match
  by_cases hd0 : (s.takeWhile isDigitCh).isEmpty = true
  · simp only [hd0, if_true]
  · simp only [hd0, Bool.false_eq_true, if_false]
    obtain ⟨hsub2, hsub1⟩ := takeDotGroups_sub 5 (s.dropWhile isDigitCh)
    rcases hg : takeDotGroups 5 (s.dropWhile isDigitCh) with ⟨grps, r1⟩
    rw [hg] at hsub2 hsub1
    have hr1 : r1.Sublist s := hsub2.trans (List.dropWhile_sublist _)
    have hgrp : ∀ g ∈ grps, g.Sublist s :=
      fun g hgm => (hsub1 g hgm).trans (List.dropWhile_sublist _)
    simp only []
    cases r1 with
    | nil =>
      simp only [List.dropWhile_nil, List.takeWhile_nil, List.reverse_nil,
        List.isEmpty_nil, Bool.not_true, Bool.false_eq_true, if_false]
      exact pattern1_tail_congr s N hlab grps hgrp
    | cons c t =>
      have ht : t.Sublist s := (List.sublist_cons_self c t).trans hr1
      by_cases hp : isPunctCh c = true
      · simp only [hp, if_true]
        by_cases hre : (t.dropWhile isWsCh).isEmpty = true
        · simp only [hre, Bool.not_true, Bool.false_eq_true, if_false]
          cases hw : (t.takeWhile isWsCh).reverse with
          | nil =>
            simp only []
            have hc : [c].Sublist s :=
              List.singleton_sublist.mpr (hr1.subset (List.mem_cons_self c t))
            rw [hlab [c] hc]
          | cons c2 wrev =>
            have hc2m : c2 ∈ t := (List.takeWhile_sublist isWsCh).subset
              (List.mem_reverse.mp (hw ▸ List.mem_cons_self c2 wrev))
            have hc2 : [c2].Sublist s :=
              List.singleton_sublist.mpr (ht.subset hc2m)
            simp only [hlab [c2] hc2]
        · have hrest : (t.dropWhile isWsCh).Sublist s :=
            (List.dropWhile_sublist _).trans ht
          simp only [hre, Bool.not_false, if_true, hlab _ hrest]
      · simp only [hp, Bool.false_eq_true, if_false]
        by_cases hre : ((c :: t).dropWhile isWsCh).isEmpty = true
        · simp only [hre, Bool.not_true, Bool.false_eq_true, if_false]
          cases hw : ((c :: t).takeWhile isWsCh).reverse with
          | nil =>
            simp only []
            exact pattern1_tail_congr s N hlab grps hgrp
          | cons c2 wrev =>
            have hc2m : c2 ∈ c :: t := (List.takeWhile_sublist isWsCh).subset
              (List.mem_reverse.mp (hw ▸ List.mem_cons_self c2 wrev))
            have hc2 : [c2].Sublist s :=
              List.singleton_sublist.mpr (hr1.subset hc2m)
            simp only [hlab [c2] hc2]
        · have hrest : ((c :: t).dropWhile isWsCh).Sublist s :=
            (List.dropWhile_sublist _).trans hr1
          simp only [hre, Bool.not_false, if_true, hlab _ hrest]

theorem pattern2Match_congr (s : List Char) (N : Nat)
    (hcr : ∀ c ∈ s, c ≠ '\r') (hlen : s.length ≤ 200) (hN : s.length ≤ N) :
    pattern2Match g2cV1 N s = pattern2Match g2cV2 200 s := by
  have hlab : ∀ x : List Char, x.Sublist s → labelOk g2cV1 N x = labelOk g2cV2 200 x :=
    fun x hx => labelOk_eq_of_sub s x N hcr hlen hN hx
  unfold pattern2Match
  by_cases h0 : ((s.takeWhile isRomanCh).isEmpty
      || decide (10 < (s.takeWhile isRomanCh).length)) = true
  · simp only [h0, if_true]
  · simp only [h0, Bool.false_eq_true, if_false]
    cases hd : s.dropWhile isRomanCh with
    | nil => rfl
    | cons c t =>
      have hct : (c :: t).Sublist s := hd ▸ List.dropWhile_sublist isRomanCh
      have ht : t.Sublist s := (List.sublist_cons_self c t).trans hct
      by_cases hp : isPunctCh c = true
      · simp only [hp, if_true]
        by_cases hre : (t.dropWhile isWsCh).isEmpty = true
        · simp only [hre, Bool.not_true, Bool.false_eq_true, if_false]
          cases hw : (t.takeWhile isWsCh).reverse with
          | nil => rfl
          | cons c2 wrev =>
            have hc2 : [c2].Sublist s := List.singleton_sublist.mpr
              (ht.subset ((List.takeWhile_sublist isWsCh).subset
                (List.mem_reverse.mp (hw ▸ List.mem_cons_self c2 wrev))))
            simp only [hlab [c2] hc2]
        · have hrest : (t.dropWhile isWsCh).Sublist s :=
            (List.dropWhile_sublist _).trans ht
          simp only [hre, Bool.not_false, if_true, hlab _ hrest]
      · simp only [hp, Bool.false_eq_true, if_false]

theorem pattern3Match_congr (s : List Char) (N : Nat)
    (hcr : ∀ c ∈ s, c ≠ '\r') (hlen : s.length ≤ 200) (hN : s.length ≤ N) :
    pattern3Match g2cV1 N s = pattern3Match g2cV2 200 s := by
  have hlab : ∀ x : List Char, x.Sublist s → labelOk g2cV1 N x = labelOk g2cV2 200 x :=
    fun x hx => labelOk_eq_of_sub s x N hcr hlen hN hx
  unfold pattern3Match
  cases s with
  | nil => rfl
  | cons c rest0 =>
    cases rest0 with
    | nil => rfl
    | cons p t =>
      have ht : t.Sublist (c :: p :: t) :=
        (List.sublist_cons_self p t).trans (List.sublist_cons_self c (p :: t))
      by_cases hcp : (isUpperAZ c && isPunctCh p) = true
      · simp only [hcp, if_true]
        by_cases hre : (t.dropWhile isWsCh).isEmpty = true
        · simp only [hre, Bool.not_true, Bool.false_eq_true, if_false]
          cases hw : (t.takeWhile isWsCh).reverse with
          | nil => rfl
          | cons c2 wrev =>
            have hc2 : [c2].Sublist (c :: p :: t) := List.singleton_sublist.mpr
              (ht.subset ((List.takeWhile_sublist isWsCh).subset
                (List.mem_reverse.mp (hw ▸ List.mem_cons_self c2 wrev))))
            simp only [hlab [c2] hc2]
        · have hrest : (t.dropWhile isWsCh).Sublist (c :: p :: t) :=
            (List.dropWhile_sublist _).trans ht
          simp only [hre, Bool.not_false, if_true, hlab _ hrest]
      · simp only [hcp, Bool.false_eq_true, if_false]

theorem pattern4Match_congr (s : List Char) (N : Nat)
    (hcr : ∀ c ∈ s, c ≠ '\r') (hlen : s.length ≤ 200) (hN : s.length ≤ N) :
    pattern4Match g2cV1 N s = pattern4Match g2cV2 200 s := by
  unfold pattern4Match
  by_cases h0 : (decide ((s.takeWhile isUpperAZ).length < 2)
      || decide (4 < (s.takeWhile isUpperAZ).length)) = true
  · simp only [h0, if_true]
  · simp only [h0, Bool.false_eq_true, if_false]
    by_cases hw : ((s.dropWhile isUpperAZ).takeWhile isWsCh).isEmpty = true
    · simp only [hw, if_true]
    · simp only [hw, Bool.false_eq_true, if_false]
      cases hd : (s.dropWhile isUpperAZ).dropWhile isWsCh with
      | nil => rfl
      | cons c tail =>
        have hct : (c :: tail).Sublist s := hd ▸ (List.dropWhile_sublist isWsCh).trans
          (List.dropWhile_sublist isUpperAZ)
        have htail : tail.Sublist s := (List.sublist_cons_self c tail).trans hct
        have hall := all_ne_cr tail (fun d hdm => hcr d (htail.subset hdm))
        have hlen1 : decide (tail.length ≤ N) = true :=
          decide_eq_true (le_trans htail.length_le hN)
        have hlen2 : decide (tail.length ≤ 200) = true :=
          decide_eq_true (le_trans htail.length_le hlen)
        simp only [hall, hlen1, hlen2]

theorem trimL_sublist (l : List Char) : (trimL l).Sublist l := by
  have h1 : ((l.dropWhile isWsCh).reverse.dropWhile isWsCh).reverse.Sublist
      (l.dropWhile isWsCh).reverse.reverse := (List.dropWhile_sublist _).reverse
  rw [List.reverse_reverse] at h1
  exact h1.trans (List.dropWhile_sublist _)

theorem tryMatchHeading_congr (s : List Char)
    (hcr : ∀ c ∈ s, c ≠ '\r') (hlen : s.length ≤ 200) :
    tryMatchHeadingV1 s = tryMatchHeading s := by
  unfold tryMatchHeadingV1 tryMatchHeading tryMatchHeadingGen
  rw [pattern1Match_congr s s.length hcr hlen (le_refl _),
    pattern2Match_congr s s.length hcr hlen (le_refl _),
    pattern3Match_congr s s.length hcr hlen (le_refl _),
    pattern4Match_congr s s.length hcr hlen (le_refl _)]

theorem extractStep_congr (st : ExtractState) (line : List Char)
    (hcr : ∀ c ∈ line, c ≠ '\r') (hlen : (trimL line).length ≤ 200) :
    extractStepWith tryMatchHeadingV1 st line = extractStepWith tryMatchHeading st line := by
  simp only [extractStepWith]
  rw [tryMatchHeading_congr (trimL line)
    (fun c hc => hcr c ((trimL_sublist line).subset hc)) hlen]

theorem splitOnCh_chars (sep : Char) (s : List Char) :
    ∀ piece ∈ splitOnCh sep s, ∀ c ∈ piece, c ∈ s := by
  induction s with
  | nil =>
    intro piece hp c hc
    simp [splitOnCh] at hp
    subst hp
    simp at hc
  | cons d t ih =>
    intro piece hp c hc
    unfold splitOnCh at hp
    by_cases hd : (d == sep) = true
    · rw [if_pos hd] at hp
      rcases List.mem_cons.mp hp with rfl | hp2
      · simp at hc
      · exact List.mem_cons_of_mem d (ih piece hp2 c hc)
    · rw [if_neg hd] at hp
      cases hsp : splitOnCh sep t with
      | nil =>
        rw [hsp] at hp
        simp at hp
        subst hp
        rcases List.mem_singleton.mp hc with rfl
        exact List.mem_cons_self _ _
      | cons p ps =>
        rw [hsp] at hp
        rcases List.mem_cons.mp hp with rfl | hp2
        · rcases List.mem_cons.mp hc with rfl | hc2
          · exact List.mem_cons_self _ _
          · exact List.mem_cons_of_mem d (ih p (hsp ▸ List.mem_cons_self p ps) c hc2)
        · exact List.mem_cons_of_mem d (ih piece (hsp ▸ List.mem_cons_of_mem p hp2) c hc)

theorem extractSections_congr (content : List Char)
    (hcr : ∀ c ∈ content, c ≠ '\r')
    (hlen : ∀ l ∈ splitNl content, (trimL l).length ≤ 200) :
    extractSectionsV1 content = extractSections content := by
  unfold extractSectionsV1 extractSections extractSectionsWith
  have hfold : ∀ (lines : List (List Char)),
      (∀ l ∈ lines, (∀ c ∈ l, c ≠ '\r') ∧ (trimL l).length ≤ 200) →
      ∀ st : ExtractState,
        lines.foldl (extractStepWith tryMatchHeadingV1) st =
        lines.foldl (extractStepWith tryMatchHeading) st := by
    intro lines
    induction lines with
    | nil => intro _ st; rfl
    | cons l ls ihl =>
      intro hall st
      simp only [List.foldl_cons]
      rw [extractStep_congr st l (hall l (List.mem_cons_self l ls)).1
        (hall l (List.mem_cons_self l ls)).2]
      exact ihl (fun x hx => hall x (List.mem_cons_of_mem l hx)) _
  rw [hfold (splitNl content)
    (fun l hl => ⟨fun c hc => hcr c (splitOnCh_chars '\n' content l hl c hc), hlen l hl⟩)]

theorem extractTitle_first_line_agree (content filePath l : List Char)
    (rest : List (List Char))
    (hlines : (splitNl content).filter (fun x => !(trimL x).isEmpty) = l :: rest)
    (hm1 : (decide (5 < (trimL l).length) && decide ((trimL l).length < 150) &&
      !metadataV1 (trimL l) && firstCharIsOwnUpper (trimL l)) = true)
    (hm2 : skipLineV2 (toLowerL (trimL l)) = false)
    (hm3 : titleAcceptV2 (trimL l) = true) :
    extractTitleV1 content filePath = extractTitle content filePath := by
  simp only [extractTitleV1, extractTitle, hlines]
  unfold titleScanV1 titleScanV2
  rw [if_pos hm1, if_neg (by simp [hm2]), if_pos hm3]

/-- C10 (amended): the two copies of shared.ts are not extensionally equal
(see the counterexample), but they agree on the restricted domain the
counterexample excludes: when the content contains no carriage return and
every line trims to at most 200 characters, the two extractSections
coincide; and when additionally the first non-blank line passes both
copies' title tests, the two extractTitle coincide. -/
theorem sharedTs_copies_agree_restricted (content filePath l : List Char)
    (rest : List (List Char))
    (hcr : ∀ c ∈ content, c ≠ '\r')
    (hlen : ∀ x ∈ splitNl content, (trimL x).length ≤ 200)
    (hlines : (splitNl content).filter (fun x => !(trimL x).isEmpty) = l :: rest)
    (hm1 : (decide (5 < (trimL l).length) && decide ((trimL l).length < 150) &&
      !metadataV1 (trimL l) && firstCharIsOwnUpper (trimL l)) = true)
    (hm2 : skipLineV2 (toLowerL (trimL l)) = false)
    (hm3 : titleAcceptV2 (trimL l) = true) :
    extractSectionsV1 content = extractSections content ∧
    extractTitleV1 content filePath = extractTitle content filePath :=
  ⟨extractSections_congr content hcr hlen,
   extractTitle_first_line_agree content filePath l rest hlines hm1 hm2 hm3⟩

/-- Witness for the amended C10 at a concrete content and path. -/
theorem sharedTs_copies_agree_restricted_witness :
    extractSectionsV1 ("Security Policy Overview\n1. Purpose\nSome body".data) =
      extractSections ("Security Policy Overview\n1. Purpose\nSome body".data) ∧
    extractTitleV1 ("Security Policy Overview\n1. Purpose\nSome body".data) ("pol.md".data) =
      extractTitle ("Security Policy Overview\n1. Purpose\nSome body".data) ("pol.md".data) :=
  sharedTs_copies_agree_restricted
    ("Security Policy Overview\n1. Purpose\nSome body".data) ("pol.md".data)
    ("Security Policy Overview".data)
    ["1. Purpose".data, "Some body".data]
    (by decide) (by decide) (by decide) (by decide) (by decide) (by decide)

end PolicyMcp
